import Mathlib

/-!
# Verification of the ProjectionLab investment updater

A shallow embedding of `projectionlab.py` and proofs about its behaviour.

Conventions of the embedding:
* Python dicts with insertion order become association lists (`List (k × v)`);
  `x in d` / `d[x]` become `List.lookup`.
* Python floats are modelled as exact rationals (`ℚ`).  The claims under
  study only exercise values that floats represent exactly, so no rounding
  behaviour of IEEE arithmetic is relevant to them.
* `None` price entries become `Option` values (`none` = Python `None`).
* Wall-clock timestamps are modelled as integer seconds (`ℤ`); the source
  only compares time differences against integer TTLs.
* External effects (HTTP responses, the browser, TOTP generation) are
  passed in explicitly as data describing what the environment does.
-/

namespace ProjectionLab

/-! ## Data model (accounts.yaml / §3 of the design) -/

/-- An account from `accounts.yaml`: `id`, `name`, and an optional `assets`
section holding a crypto mapping (coin-id → quantity) and a stock sequence
(symbol, shares).  `none` models a missing `crypto` / `stock` key (the
source guards with `'assets' in account and 'crypto' in account['assets']`). -/
structure Account where
  id : String
  name : String
  crypto : Option (List (String × ℚ))
  stock : Option (List (String × ℚ))
deriving DecidableEq, Inhabited

/-- One line of the human-readable per-asset summary built by
`calculate_account_balances`.  The source renders it as a formatted string
(`f"{crypto_id}: {amount} (${crypto_value:,.2f})"`); we keep the three data
fields, since the claims concern which line items appear, not their text. -/
structure SummaryItem where
  asset : String
  amount : ℚ
  value : ℚ
deriving DecidableEq

/-! ## BalanceCalculator: `calculate_account_balances` (lines 329-376) -/

/-- Loop body for one crypto holding (lines 342-349 of the source):
```
if crypto_id in crypto_prices and crypto_prices[crypto_id] is not None:
    crypto_value = amount * crypto_prices[crypto_id]
    if crypto_value > 0:
        assets_summary.append(...)
        total_usd += crypto_value
else:
    logging.warning(...)
```
The accumulator is the pair (running `total_usd`, `assets_summary`). -/
def cryptoStep (cryptoPrices : List (String × Option ℚ))
    (acc : ℚ × List SummaryItem) (holding : String × ℚ) : ℚ × List SummaryItem :=
  match cryptoPrices.lookup holding.1 with
  | some (some price) =>
      let v := holding.2 * price
      if 0 < v then (acc.1 + v, acc.2 ++ [⟨holding.1, holding.2, v⟩]) else acc
  | _ => acc

/-- Loop body for one stock holding (lines 355-364 of the source): a known
price always contributes to both the summary and the total (no sign check);
a missing price is skipped with a warning. -/
def stockStep (stockPrices : List (String × ℚ))
    (acc : ℚ × List SummaryItem) (holding : String × ℚ) : ℚ × List SummaryItem :=
  match stockPrices.lookup holding.1 with
  | some price =>
      let v := holding.2 * price
      (acc.1 + v, acc.2 ++ [⟨holding.1, holding.2, v⟩])
  | none => acc

/-- Per-account pass of `calculate_account_balances`: crypto holdings first,
then stock holdings, starting from `total_usd = 0` and an empty summary. -/
def accountSummary (cryptoPrices : List (String × Option ℚ))
    (stockPrices : List (String × ℚ)) (a : Account) : ℚ × List SummaryItem :=
  let afterCrypto :=
    match a.crypto with
    | some cas => cas.foldl (cryptoStep cryptoPrices) (0, [])
    | none => (0, [])
  match a.stock with
  | some sas => sas.foldl (stockStep stockPrices) afterCrypto
  | none => afterCrypto

/-- Render an integer number of cents as a 2-decimal string, e.g.
`formatCents 150000 = "1500.00"`. -/
def formatCents (c : ℤ) : String :=
  let a := c.natAbs
  (if c < 0 then "-" else "") ++ toString (a / 100) ++ "." ++
    (if a % 100 < 10 then "0" ++ toString (a % 100) else toString (a % 100))

/-- Python's `f"{total_usd:.2f}"` on our exact-rational model of the float:
round to a whole number of cents, then render.  (Values appearing in the
claims are exact multiples of a cent, so no float-rounding subtleties
arise.) -/
def format2 (q : ℚ) : String := formatCents (round (q * 100))

/-- The update command string built on line 367 of the source:
`window.projectionlabPluginAPI.updateAccount('<id>', { balance: <b> }, { key: '<key>' })`. -/
def mkCommand (accountId : String) (balance : String) (apiKey : String) : String :=
  "window.projectionlabPluginAPI.updateAccount('" ++ accountId ++
    "', \x7b balance: " ++ balance ++ " \x7d, \x7b key: '" ++ apiKey ++ "' \x7d)"

/-- `calculate_account_balances(accounts, crypto_prices, stock_prices, pl_api_key)`:
one command per account, in input order, with the balance formatted to two
decimals only at this final step. -/
def calculate_account_balances (accounts : List Account)
    (cryptoPrices : List (String × Option ℚ)) (stockPrices : List (String × ℚ))
    (plApiKey : String) : List String :=
  accounts.map fun a =>
    mkCommand a.id (format2 (accountSummary cryptoPrices stockPrices a).1) plApiKey

/-! ## PriceAggregator: `get_crypto_prices` (lines 169-224) -/

/-- What the environment does on one HTTP attempt: a 429 with an optional
`Retry-After` header, a successful response whose JSON body maps ids to an
optional `usd` field, or any other failure (network error, non-2xx status,
malformed body — all of which the source handles identically via its
`except` clauses). -/
inductive FetchOutcome where
  | rate429 (retryAfter : Option ℕ)
  | success (body : List (String × Option ℚ))
  | error
deriving DecidableEq

/-- `data[crypto_id]['usd']` when present: `some p` iff the body has the id
with a `usd` field. -/
def bodyUsd (body : List (String × Option ℚ)) (cryptoId : String) : Option ℚ :=
  match body.lookup cryptoId with
  | some (some p) => some p
  | _ => none

/-- The mapping built from a successful response (lines 196-208): an entry
for every requested id; ids missing from the body get the explicit absent
marker `none` (Python `prices[crypto_id] = None`). -/
def successPrices (cryptoIds : List String) (body : List (String × Option ℚ)) :
    List (String × Option ℚ) :=
  cryptoIds.map fun cid => (cid, bodyUsd body cid)

/-- The retry loop `for attempt in range(max_retries)` of `get_crypto_prices`,
indexed by the current `attempt` and the number of remaining iterations.
Returns the resulting mapping together with the list of sleep durations
performed (in seconds), in order:
* HTTP 429: sleep `Retry-After` (default `retry_delay`) and `continue` —
  note this advances the loop to the next `attempt`;
* success: build the mapping and return, no sleep;
* other failure: if this was not the last attempt, sleep
  `retry_delay * 2 ** attempt` and go on; otherwise fall out of the loop
  and return the empty mapping. -/
def getCryptoPricesGo (cryptoIds : List String) (retryDelay : ℕ)
    (env : ℕ → FetchOutcome) : ℕ → ℕ → List (String × Option ℚ) × List ℕ
  | _, 0 => ([], [])
  | attempt, r + 1 =>
    match env attempt with
    | .rate429 ra =>
        ((getCryptoPricesGo cryptoIds retryDelay env (attempt + 1) r).1,
          ra.getD retryDelay :: (getCryptoPricesGo cryptoIds retryDelay env (attempt + 1) r).2)
    | .success body => (successPrices cryptoIds body, [])
    | .error =>
        if r = 0 then ([], [])
        else
          ((getCryptoPricesGo cryptoIds retryDelay env (attempt + 1) r).1,
            retryDelay * 2 ^ attempt :: (getCryptoPricesGo cryptoIds retryDelay env (attempt + 1) r).2)

/-- `get_crypto_prices(crypto_ids, max_retries=3, retry_delay=5)` with the
environment's per-attempt outcomes passed explicitly. -/
def get_crypto_prices (cryptoIds : List String) (maxRetries retryDelay : ℕ)
    (env : ℕ → FetchOutcome) : List (String × Option ℚ) × List ℕ :=
  getCryptoPricesGo cryptoIds retryDelay env 0 maxRetries

/-! ## PriceCache: `get_cached_crypto_prices` (lines 246-300) -/

/-- The on-disk cache record `{'timestamp': ..., 'prices': ...}`.  Price
values may be `null` in the JSON (a `None` recorded by a previous fetch),
hence `Option ℚ`. -/
structure CacheRecord where
  timestamp : ℤ
  prices : List (String × Option ℚ)
deriving DecidableEq

/-- The cache-consult phase (lines 252-275): a hit requires the record to
exist, `current_time - timestamp < cache_duration`, and every requested id
to be a key of the record (a `null` value still counts as present).  On a
hit the full cached mapping is returned. -/
def cacheRead (cache : Option CacheRecord) (now ttl : ℤ) (cryptoIds : List String) :
    Option (List (String × Option ℚ)) :=
  match cache with
  | none => none
  | some r =>
      if now - r.timestamp < ttl then
        if cryptoIds.all (fun cid => (r.prices.lookup cid).isSome) then
          some r.prices
        else none
      else none

/-- The cache-update phase (lines 283-298): `if prices:` — a non-empty fresh
mapping is persisted as `{'timestamp': now, 'prices': prices}`, opening the
file with mode `'w'` (full replacement); an empty mapping leaves the cache
untouched. -/
def cacheWrite (now : ℤ) (prices : List (String × Option ℚ))
    (cache : Option CacheRecord) : Option CacheRecord :=
  if prices.isEmpty then cache else some ⟨now, prices⟩

/-- `get_cached_crypto_prices(crypto_ids, cache_duration)`: consult the
cache; on a miss take the fresh fetch result `fetched` (the value
`get_crypto_prices` returned) and write the cache iff it is non-empty.
Returns the mapping handed to the caller and the cache state after the
call. -/
def get_cached_crypto_prices (cache : Option CacheRecord) (now ttl : ℤ)
    (cryptoIds : List String) (fetched : List (String × Option ℚ)) :
    List (String × Option ℚ) × Option CacheRecord :=
  match cacheRead cache now ttl cryptoIds with
  | some prices => (prices, cache)
  | none => (fetched, cacheWrite now fetched cache)

/-! ## AuthSession: `handle_mfa_code` (lines 379-484) -/

/-- `handle_mfa_code(driver, mfa_code, pl_mfa, pl_email)` observed through
its retry structure.  `env` lists, for each submission the function makes,
the pair (was the code rejected — i.e. is the OTP input group still present
after submitting —, the result of `get_totp_from_secret` for the fresh code
generated after a rejection; `none` models a failed generation).  The
source:
* accepted submission → `return True`;
* rejected, fresh code generation failed → `return False`;
* rejected, fresh code equals the submitted one → `return False`;
* rejected, fresh code differs → recurse: `return handle_mfa_code(driver,
  fresh_mfa_code, pl_mfa, pl_email)` — with no bound on the recursion depth.
An exhausted `env` (unmodelled further behaviour) is treated as a failed
generation.  The second component counts the retries (recursive calls)
performed. -/
def handle_mfa_code : String → List (Bool × Option String) → Bool × ℕ
  | _, [] => (false, 0)
  | code, (rejected, gen) :: rest =>
    if rejected then
      match gen with
      | none => (false, 0)
      | some fresh =>
          if fresh ≠ code then
            ((handle_mfa_code fresh rest).1, (handle_mfa_code fresh rest).2 + 1)
          else (false, 0)
    else (true, 0)

/-- A family of pairwise-distinct TOTP codes (distinct lengths), used to
exhibit arbitrarily long retry chains. -/
def mfaCodeN (k : ℕ) : String := ⟨List.replicate k '1'⟩

/-- An always-rejecting environment that serves `n` successive distinct
fresh codes starting after `mfaCodeN k`, then repeats the last one (same
TOTP window), which stops the recursion. -/
def mfaEnvN : ℕ → ℕ → List (Bool × Option String)
  | k, 0 => [(true, some (mfaCodeN k))]
  | k, n + 1 => (true, some (mfaCodeN (k + 1))) :: mfaEnvN (k + 1) n

/-! ## CommandExecutor: the redaction in `update_projectionlab` (lines 666-669)

```
redacted_command = command.replace(command.split("key: '")[1].split("'")[0], "***REDACTED***")
logging.info(f"Executing command: {redacted_command}")
```

Python `str.split(sep)` and `str.replace(old, new)` scan left to right over
non-overlapping occurrences; we implement both over `List Char`.  The
auxiliary functions walk the string one character at a time, with `skip`
counting characters of a just-matched separator still to be consumed. -/

/-- Python `s.split(sep)` (for non-empty `sep`), accumulator-style.
`acc` holds the current piece reversed. -/
def pySplitAux (sep : List Char) : List Char → ℕ → List Char → List (List Char)
  | [], _, acc => [acc.reverse]
  | _ :: rest, k + 1, acc => pySplitAux sep rest k acc
  | c :: rest, 0, acc =>
    if sep ≠ [] ∧ sep.isPrefixOf (c :: rest) then
      acc.reverse :: pySplitAux sep rest (sep.length - 1) []
    else pySplitAux sep rest 0 (c :: acc)

/-- Python `s.split(sep)` for non-empty `sep` (the source only uses the
separators `"key: '"` and `"'"`). -/
def pySplit (sep s : List Char) : List (List Char) := pySplitAux sep s 0 []

/-- Python `s.replace(old, new)` (for non-empty `old`), one character at a
time. -/
def pyReplaceAux (old new : List Char) : List Char → ℕ → List Char
  | [], _ => []
  | _ :: rest, k + 1 => pyReplaceAux old new rest k
  | c :: rest, 0 =>
    if old ≠ [] ∧ old.isPrefixOf (c :: rest) then
      new ++ pyReplaceAux old new rest (old.length - 1)
    else c :: pyReplaceAux old new rest 0

/-- Python `s.replace(old, new)` for non-empty `old`. -/
def pyReplace (s old new : List Char) : List Char := pyReplaceAux old new s 0

/-- The separator `"key: '"` used by the redaction. -/
def keySep : List Char := ['k', 'e', 'y', ':', ' ', '\'']

/-- The separator `"'"` used by the redaction. -/
def quoteSep : List Char := ['\'']

/-- The fixed marker `"***REDACTED***"`. -/
def redactionMarker : List Char := "***REDACTED***".toList

/-- `command.split("key: '")[1].split("'")[0]` — the substring the source
takes to be the embedded credential.  (Python raises `IndexError` when
`"key: '"` does not occur; every generated command contains it, and we
default to `[]` in that unreachable case.) -/
def extractSecret (cmd : List Char) : List Char :=
  (pySplit quoteSep ((pySplit keySep cmd).getD 1 [])).getD 0 []

/-- The redacted text that line 669 logs for a command:
`command.replace(<extracted secret>, "***REDACTED***")`. -/
def redactCommand (cmd : List Char) : List Char :=
  pyReplace cmd (extractSecret cmd) redactionMarker

/-- Substring test: does `pat` occur (contiguously) in `s`? -/
def containsSub (pat : List Char) : List Char → Bool
  | [] => pat.isEmpty
  | c :: rest => pat.isPrefixOf (c :: rest) || containsSub pat rest

/-- Does `pat` occur starting at some position `< n` of `s`? -/
def occursBefore (pat : List Char) : List Char → ℕ → Bool
  | _, 0 => false
  | [], _ => false
  | c :: rest, n + 1 => pat.isPrefixOf (c :: rest) || occursBefore pat rest n

/-! ## Concrete fixtures used by the counterexamples and witnesses -/

/-- An account holding 2 bitcoin and 1 ethereum and no stock. -/
def c1Account : Account := ⟨"a1", "Crypto", some [("bitcoin", 2), ("ethereum", 1)], none⟩

/-- A price snapshot with a negative bitcoin price (the negative-price stub
the design document asks to test with). -/
def c1CryptoPrices : List (String × Option ℚ) := [("bitcoin", some (-3)), ("ethereum", some 10)]

/-- The two accounts of the end-to-end example: `{AAPL: 10 shares}` and
`{bitcoin: 0.5}`. -/
def c7Accounts : List Account :=
  [⟨"acct1", "Brokerage", none, some [("AAPL", 10)]⟩,
   ⟨"acct2", "Crypto", some [("bitcoin", 1/2)], none⟩]

/-- Crypto snapshot `{bitcoin: 60000}`. -/
def c7CryptoPrices : List (String × Option ℚ) := [("bitcoin", some 60000)]

/-- Stock snapshot `{AAPL: 150}`. -/
def c7StockPrices : List (String × ℚ) := [("AAPL", 150)]

/-- An environment whose first attempt fails transiently and whose later
attempts succeed with a body pricing only bitcoin. -/
def c6Env : ℕ → FetchOutcome :=
  fun k => if k = 0 then .error else .success [("bitcoin", some 42)]

/-- An environment answering the first attempt with HTTP 429 and
`Retry-After: 2`, and every later attempt with a transient error. -/
def c3Env : ℕ → FetchOutcome :=
  fun k => if k = 0 then .rate429 (some 2) else .error

/-! ## Helper lemmas -/

/-- A fold whose step fixes every accumulator is the identity. -/
lemma foldl_const {α β : Type} (step : β → α → β) (l : List α)
    (h : ∀ x ∈ l, ∀ b : β, step b x = b) : ∀ b : β, l.foldl step b = b := by
  induction l with
  | nil => intro b; rfl
  | cons a t ih =>
      intro b
      rw [List.foldl_cons, h a (List.mem_cons_self a t)]
      exact ih (fun x hx b₂ => h x (List.mem_cons_of_mem a hx) b₂) b

/-- `getD` commutes with `map` at in-range indices. -/
lemma map_getD_lt {α β : Type} (l : List α) (f : α → β) (d : α) (dβ : β) :
    ∀ i : ℕ, i < l.length → (l.map f).getD i dβ = f (l.getD i d) := by
  induction l with
  | nil => intro i hi; simp at hi
  | cons a t ih =>
      intro i hi
      cases i with
      | zero => rfl
      | succ n => simpa using ih n (by simpa using hi)

/-- A crypto holding whose id is missing from the snapshot, or mapped to the
absent marker, changes neither the total nor the summary. -/
lemma cryptoStep_unusable (cp : List (String × Option ℚ)) (acc : ℚ × List SummaryItem)
    (x : String × ℚ) (h : cp.lookup x.1 = none ∨ cp.lookup x.1 = some none) :
    cryptoStep cp acc x = acc := by
  rcases h with h | h <;> simp [cryptoStep, h]

/-- A stock holding whose symbol has no price changes neither the total nor
the summary. -/
lemma stockStep_missing (sp : List (String × ℚ)) (acc : ℚ × List SummaryItem)
    (x : String × ℚ) (h : sp.lookup x.1 = none) :
    stockStep sp acc x = acc := by
  simp [stockStep, h]

/-- The mapping built from a successful response has an entry for every
requested id. -/
lemma successPrices_lookup (body : List (String × Option ℚ)) :
    ∀ (ids : List String) (cid : String), cid ∈ ids →
      (successPrices ids body).lookup cid = some (bodyUsd body cid) := by
  intro ids
  induction ids with
  | nil => intro cid h; cases h
  | cons a t ih =>
      intro cid h
      rcases eq_or_ne cid a with rfl | hne
      · simp [successPrices, List.lookup]
      · have hba : (cid == a) = false := by simpa using hne
        have ht : cid ∈ t := by
          rcases List.mem_cons.mp h with h' | h'
          · exact absurd h' hne
          · exact h'
        simpa [successPrices, List.lookup, hba] using ih cid ht

/-- If no attempt in the window succeeds, the retry loop falls through and
produces the empty mapping. -/
lemma go_no_success (ids : List String) (delay : ℕ) (env : ℕ → FetchOutcome) :
    ∀ (r attempt : ℕ),
      (∀ k, attempt ≤ k → k < attempt + r → ∀ b, env k ≠ .success b) →
      (getCryptoPricesGo ids delay env attempt r).1 = [] := by
  intro r
  induction r with
  | zero => intro attempt _; rfl
  | succ n ih =>
      intro attempt h
      cases he : env attempt with
      | rate429 ra =>
          simp only [getCryptoPricesGo, he]
          exact ih (attempt + 1) (fun k hk1 hk2 b => h k (by omega) (by omega) b)
      | success body => exact absurd he (h attempt le_rfl (by omega) body)
      | error =>
          rcases Nat.eq_zero_or_pos n with hn | hn
          · subst hn; simp [getCryptoPricesGo, he]
          · simp only [getCryptoPricesGo, he, if_neg (Nat.pos_iff_ne_zero.mp hn)]
            exact ih (attempt + 1) (fun k hk1 hk2 b => h k (by omega) (by omega) b)

/-- The first successful attempt inside the window determines the result of
the retry loop. -/
lemma go_success (ids : List String) (delay : ℕ) (env : ℕ → FetchOutcome) :
    ∀ (r attempt k : ℕ) (body : List (String × Option ℚ)),
      attempt ≤ k → k < attempt + r → env k = .success body →
      (∀ j, attempt ≤ j → j < k → ∀ b, env j ≠ .success b) →
      (getCryptoPricesGo ids delay env attempt r).1 = successPrices ids body := by
  intro r
  induction r with
  | zero => intro attempt k body h1 h2 _ _; exact absurd h2 (by omega)
  | succ n ih =>
      intro attempt k body h1 h2 h3 h4
      rcases Nat.eq_or_lt_of_le h1 with heq | hlt
      · subst heq
        simp [getCryptoPricesGo, h3]
      · cases he : env attempt with
        | success b => exact absurd he (h4 attempt le_rfl hlt b)
        | rate429 ra =>
            simp only [getCryptoPricesGo, he]
            exact ih (attempt + 1) k body hlt (by omega) h3
              (fun j hj1 hj2 b => h4 j (by omega) hj2 b)
        | error =>
            have hn : n ≠ 0 := by omega
            simp only [getCryptoPricesGo, he, if_neg hn]
            exact ih (attempt + 1) k body hlt (by omega) h3
              (fun j hj1 hj2 b => h4 j (by omega) hj2 b)

/-- Under an all-429 environment every attempt sleeps the same override
duration, and the loop stops with the empty mapping after exactly
`maxRetries` attempts. -/
lemma go_429_replicate (ids : List String) (delay : ℕ) (ra : Option ℕ) :
    ∀ (r attempt : ℕ),
      getCryptoPricesGo ids delay (fun _ => .rate429 ra) attempt r =
        ([], List.replicate r (ra.getD delay)) := by
  intro r
  induction r with
  | zero => intro attempt; rfl
  | succ n ih => intro attempt; simp [getCryptoPricesGo, ih (attempt + 1), List.replicate_succ]

/-- Successive codes of the `mfaCodeN` family differ (distinct lengths). -/
lemma mfaCodeN_succ_ne (k : ℕ) : mfaCodeN (k + 1) ≠ mfaCodeN k := by
  intro h
  have hlen := congrArg (fun s => s.data.length) h
  simp only [mfaCodeN, List.length_replicate] at hlen
  omega

/-- A chain of `n` distinct fresh codes under constant rejection produces
exactly `n` retries before the repeat stops the recursion. -/
lemma handle_mfa_chain : ∀ (n k : ℕ), handle_mfa_code (mfaCodeN k) (mfaEnvN k n) = (false, n) := by
  intro n
  induction n with
  | zero =>
      intro k
      simp [mfaEnvN, handle_mfa_code]
  | succ n ih =>
      intro k
      simp only [mfaEnvN, handle_mfa_code, if_true]
      rw [if_pos (mfaCodeN_succ_ne k), ih (k + 1)]

/-- Skipping over a just-matched separator of length `|X|`. -/
lemma pySplitAux_skip (sep : List Char) :
    ∀ (X R acc : List Char), pySplitAux sep (X ++ R) X.length acc = pySplitAux sep R 0 acc := by
  intro X
  induction X with
  | nil => intro R acc; rfl
  | cons c t ih =>
      intro R acc
      simp only [List.cons_append, List.length_cons, pySplitAux]
      exact ih R acc

/-- Scanning past a position where the separator does not match. -/
lemma pySplitAux_cons_miss (sep : List Char) (c : Char) (rest acc : List Char)
    (h : sep.isPrefixOf (c :: rest) = false) :
    pySplitAux sep (c :: rest) 0 acc = pySplitAux sep rest 0 (c :: acc) := by
  simp only [pySplitAux]
  rw [if_neg]
  rintro ⟨-, hp⟩
  rw [h] at hp
  exact Bool.false_ne_true hp

/-- Scanning at a position where the separator matches: emit the current
piece and start skipping the separator's remaining characters. -/
lemma pySplitAux_cons_hit (sep : List Char) (c : Char) (rest acc : List Char)
    (hsep : sep ≠ []) (h : sep.isPrefixOf (c :: rest) = true) :
    pySplitAux sep (c :: rest) 0 acc =
      acc.reverse :: pySplitAux sep rest (sep.length - 1) [] := by
  simp only [pySplitAux]
  rw [if_pos ⟨hsep, h⟩]

/-- A piece containing no occurrence of the separator is emitted whole. -/
lemma pySplitAux_no_occur (sep : List Char) :
    ∀ (s acc : List Char), containsSub sep s = false →
      pySplitAux sep s 0 acc = [acc.reverse ++ s] := by
  intro s
  induction s with
  | nil => intro acc _; simp [pySplitAux]
  | cons c t ih =>
      intro acc h
      simp only [containsSub, Bool.or_eq_false_iff] at h
      obtain ⟨h1, h2⟩ := h
      rw [pySplitAux_cons_miss sep c t acc h1, ih (c :: acc) h2]
      simp

/-- Splitting at the first separator occurrence: the text before it becomes
the first piece and scanning resumes right after the separator. -/
lemma pySplitAux_boundary (sep : List Char) (hsep : sep ≠ []) :
    ∀ (P R acc : List Char),
      occursBefore sep (P ++ sep ++ R) P.length = false →
      pySplitAux sep (P ++ sep ++ R) 0 acc = (acc.reverse ++ P) :: pySplitAux sep R 0 [] := by
  intro P
  induction P with
  | nil =>
      intro R acc _
      obtain ⟨c₀, sep', rfl⟩ : ∃ c₀ sep', sep = c₀ :: sep' := by
        cases sep with
        | nil => exact absurd rfl hsep
        | cons a b => exact ⟨a, b, rfl⟩
      have hpre : (c₀ :: sep').isPrefixOf (c₀ :: (sep' ++ R)) = true := by
        rw [List.isPrefixOf_iff_prefix, ← List.cons_append]
        exact List.prefix_append (c₀ :: sep') R
      show pySplitAux (c₀ :: sep') (c₀ :: (sep' ++ R)) 0 acc = _
      rw [pySplitAux_cons_hit _ _ _ _ hsep hpre]
      simp only [List.length_cons, Nat.add_sub_cancel]
      rw [pySplitAux_skip (c₀ :: sep') sep' R []]
      simp
  | cons p P' ih =>
      intro R acc h
      have h' : (sep.isPrefixOf (p :: (P' ++ sep ++ R)) ||
          occursBefore sep (P' ++ sep ++ R) P'.length) = false := h
      rw [Bool.or_eq_false_iff] at h'
      obtain ⟨h1, h2⟩ := h'
      show pySplitAux sep (p :: (P' ++ sep ++ R)) 0 acc = _
      rw [pySplitAux_cons_miss sep p _ acc h1, ih R (p :: acc) h2]
      simp

/-- In `key ++ "'" ++ Q` with no apostrophe in `key`, the separator `"'"`
does not occur before position `|key|`. -/
lemma occursBefore_single (c : Char) :
    ∀ (key Q : List Char), containsSub [c] key = false →
      occursBefore [c] (key ++ [c] ++ Q) key.length = false := by
  intro key
  induction key with
  | nil => intro Q _; rfl
  | cons k t ih =>
      intro Q h
      simp only [containsSub, Bool.or_eq_false_iff] at h
      obtain ⟨h1, h2⟩ := h
      have hck : (c == k) = false := by
        simpa [List.isPrefixOf] using h1
      simp only [List.cons_append, List.length_cons, occursBefore, Bool.or_eq_false_iff]
      exact ⟨by simp [List.isPrefixOf, hck], by simpa using ih Q h2⟩

/-! ## Claims -/

/-- C1, counterexample.  The claim says a crypto line item with
non-positive computed value is excluded from the per-asset summary *but
still contributes to the account's running USD total*.  On the account
holding 2 bitcoin (price −3) and 1 ethereum (price 10) the code yields
total 10 and a one-line summary: the −6 bitcoin line is excluded from the
summary *and* from the total, whereas the claim predicts total
10 + 2·(−3) = 4. -/
theorem c1_counterexample :
    accountSummary c1CryptoPrices [] c1Account = (10, [⟨"ethereum", 1, 10⟩]) ∧
      (10 : ℚ) ≠ 10 + 2 * (-3) := by
  constructor
  · norm_num +decide [accountSummary, c1Account, c1CryptoPrices, cryptoStep, List.lookup]
  · norm_num

/-- C1, amended.  In `calculate_account_balances`, a crypto holding whose
price is present and non-absent contributes to the per-asset summary and to
the running USD total exactly when its computed value `quantity * price` is
strictly positive; a zero-or-negative line item is excluded from **both**
the summary and the total. -/
theorem c1_nonpositive_line_item_excluded_from_both
    (cryptoPrices : List (String × Option ℚ)) (acc : ℚ × List SummaryItem)
    (cid : String) (amount p : ℚ) (hp : cryptoPrices.lookup cid = some (some p)) :
    (amount * p ≤ 0 → cryptoStep cryptoPrices acc (cid, amount) = acc) ∧
      (0 < amount * p →
        cryptoStep cryptoPrices acc (cid, amount) =
          (acc.1 + amount * p, acc.2 ++ [⟨cid, amount, amount * p⟩])) := by
  constructor
  · intro hle
    simp [cryptoStep, hp, not_lt.mpr hle]
  · intro hpos
    simp [cryptoStep, hp, hpos]

/-- C1, witness: a holding of 2 units at price −1 leaves both the running
total and the summary unchanged. -/
theorem c1_nonpositive_line_item_witness :
    cryptoStep [("bitcoin", some (-1 : ℚ))] (0, []) ("bitcoin", 2) = (0, []) :=
  (c1_nonpositive_line_item_excluded_from_both [("bitcoin", some (-1))] (0, [])
    "bitcoin" 2 (-1) rfl).1 (by norm_num)

/-- C4: a cache record written at time `T` is a hit for a request at
`T + Δ` with time-to-live `ttl` iff `Δ < ttl` *and* every requested id is a
key of the record; a single missing id forces a full miss regardless of
`Δ`. -/
theorem c4_cache_hit_iff (recPrices : List (String × Option ℚ)) (T Δ ttl : ℤ)
    (ids : List String) :
    (cacheRead (some ⟨T, recPrices⟩) (T + Δ) ttl ids).isSome ↔
      (Δ < ttl ∧ ∀ cid ∈ ids, (recPrices.lookup cid).isSome) := by
  have he : T + Δ - T = Δ := add_sub_cancel_left T Δ
  simp only [cacheRead, he]
  split_ifs with h1 h2 <;> simp_all [List.all_eq_true]

/-- C5: writing the price cache is a destructive replace — the persisted
record becomes exactly `{now, mapping}` whatever was stored before, and any
id absent from the new mapping is unrecoverable from the cache afterwards,
even if a prior record contained it. -/
theorem c5_cache_write_replaces (now : ℤ) (newPrices : List (String × Option ℚ))
    (cache : Option CacheRecord) (cid : String) (hne : newPrices ≠ []) :
    cacheWrite now newPrices cache = some ⟨now, newPrices⟩ ∧
      (newPrices.lookup cid = none →
        (cacheWrite now newPrices cache).bind (fun r => r.prices.lookup cid) = none) := by
  have h : newPrices.isEmpty = false := by
    cases newPrices with
    | nil => exact absurd rfl hne
    | cons a l => rfl
  refine ⟨by simp [cacheWrite, h], fun hl => by simp [cacheWrite, h, hl]⟩

/-- C5, witness: after writing `{bitcoin}` over a record holding
`{bitcoin, dogecoin}`, the record is exactly the new one and dogecoin is
gone. -/
theorem c5_cache_write_replaces_witness :
    cacheWrite 400 [("bitcoin", some 5)]
        (some ⟨100, [("bitcoin", some 1), ("dogecoin", some 2)]⟩) =
      some ⟨400, [("bitcoin", some 5)]⟩ ∧
    (cacheWrite 400 [("bitcoin", some 5)]
        (some ⟨100, [("bitcoin", some 1), ("dogecoin", some 2)]⟩)).bind
      (fun r => r.prices.lookup "dogecoin") = none := by
  have h := c5_cache_write_replaces 400 [("bitcoin", some 5)]
    (some ⟨100, [("bitcoin", some 1), ("dogecoin", some 2)]⟩) "dogecoin" (by decide)
  exact ⟨h.1, h.2 rfl⟩

/-- C9: when the fresh fetch performed after a cache miss returns the empty
mapping, the cache is not written — the previously persisted record, if
any, is left unchanged; the cache changes only when the fetch yields a
non-empty mapping, and then it becomes exactly `{now, fetched}`. -/
theorem c9_empty_fetch_preserves_cache (cache : Option CacheRecord) (now ttl : ℤ)
    (cryptoIds : List String) (fetched : List (String × Option ℚ)) :
    (fetched = [] → (get_cached_crypto_prices cache now ttl cryptoIds fetched).2 = cache) ∧
      ((get_cached_crypto_prices cache now ttl cryptoIds fetched).2 = cache ∨
        (fetched ≠ [] ∧
          (get_cached_crypto_prices cache now ttl cryptoIds fetched).2 =
            some ⟨now, fetched⟩)) := by
  cases h : cacheRead cache now ttl cryptoIds with
  | some prices =>
      exact ⟨fun _ => by simp [get_cached_crypto_prices, h],
        Or.inl (by simp [get_cached_crypto_prices, h])⟩
  | none =>
      cases fetched with
      | nil =>
          exact ⟨fun _ => by simp [get_cached_crypto_prices, h, cacheWrite],
            Or.inl (by simp [get_cached_crypto_prices, h, cacheWrite])⟩
      | cons p ps =>
          exact ⟨fun hc => absurd hc (by simp),
            Or.inr ⟨by simp, by simp [get_cached_crypto_prices, h, cacheWrite]⟩⟩

/-- C9, witness: an expired record plus an empty fetch leaves the cache
file untouched. -/
theorem c9_empty_fetch_preserves_cache_witness :
    (get_cached_crypto_prices (some ⟨0, [("bitcoin", some 3)]⟩) 1000 300 ["bitcoin"] []).2 =
      some ⟨0, [("bitcoin", some 3)]⟩ :=
  (c9_empty_fetch_preserves_cache (some ⟨0, [("bitcoin", some 3)]⟩) 1000 300
    ["bitcoin"] []).1 rfl

/-- C10: `calculate_account_balances` emits a command for *every* account:
an account with no `assets` entry, with empty crypto and stock holdings, or
with no holding carrying a usable price ends up with total 0, and its
command is emitted with balance `"0.00"` (so a run can overwrite a
previously non-zero balance with zero). -/
theorem c10_every_account_gets_command (cryptoPrices : List (String × Option ℚ))
    (stockPrices : List (String × ℚ)) (apiKey : String) (accounts : List Account)
    (a : Account) (cas sas : List (String × ℚ)) :
    (calculate_account_balances accounts cryptoPrices stockPrices apiKey).length =
      accounts.length ∧
    (a.crypto = none → a.stock = none →
      accountSummary cryptoPrices stockPrices a = (0, [])) ∧
    (a.crypto = some [] → a.stock = some [] →
      accountSummary cryptoPrices stockPrices a = (0, [])) ∧
    (a.crypto = some cas → a.stock = some sas →
      (∀ x ∈ cas, cryptoPrices.lookup x.1 = none ∨ cryptoPrices.lookup x.1 = some none) →
      (∀ x ∈ sas, stockPrices.lookup x.1 = none) →
      (accountSummary cryptoPrices stockPrices a).1 = 0) ∧
    (a ∈ accounts →
      mkCommand a.id (format2 (accountSummary cryptoPrices stockPrices a).1) apiKey ∈
        calculate_account_balances accounts cryptoPrices stockPrices apiKey) ∧
    format2 0 = "0.00" := by
  refine ⟨List.length_map accounts _, ?_, ?_, ?_, ?_, ?_⟩
  · intro h1 h2; simp [accountSummary, h1, h2]
  · intro h1 h2; simp [accountSummary, h1, h2]
  · intro h1 h2 hc hs
    simp only [accountSummary, h1, h2]
    rw [foldl_const _ _ (fun x hx b => cryptoStep_unusable cryptoPrices b x (hc x hx)),
      foldl_const _ _ (fun x hx b => stockStep_missing stockPrices b x (hs x hx))]
  · intro ha
    simpa [calculate_account_balances] using List.mem_map_of_mem _ ha
  · have h : round ((0 : ℚ) * 100) = 0 := by rw [round_eq]; norm_num
    simp only [format2, h]
    decide

/-- C10, witness: an account with no `assets` section gets total 0 and an
empty summary; an account whose only holdings have no usable price gets
total 0; and total 0 is formatted as `"0.00"`. -/
theorem c10_every_account_gets_command_witness :
    accountSummary [] [] (Account.mk "a1" "Empty" none none) = (0, []) ∧
    (accountSummary [("bitcoin", some 5)] []
        (Account.mk "a2" "NoPrice" (some [("pepecoin", 1)]) (some [("ZZZ", 2)]))).1 = 0 ∧
    format2 0 = "0.00" := by
  refine ⟨(c10_every_account_gets_command [] [] "k" [] (Account.mk "a1" "Empty" none none)
      [] []).2.1 rfl rfl, ?_, ?_⟩
  · exact (c10_every_account_gets_command [("bitcoin", some 5)] [] "k" []
      (Account.mk "a2" "NoPrice" (some [("pepecoin", 1)]) (some [("ZZZ", 2)]))
      [("pepecoin", 1)] [("ZZZ", 2)]).2.2.2.1 rfl rfl (by decide) (by decide)
  · exact (c10_every_account_gets_command [] [] "k" [] (Account.mk "a1" "Empty" none none)
      [] []).2.2.2.2.2

/-- C7: `calculate_account_balances` emits exactly one command per account,
in the accounts' input order, the balance being rounded to two decimals
only at formatting time; on the two-account example
(`{AAPL: 10 shares}` with price 150, `{bitcoin: 0.5}` with price 60000) it
yields exactly the commands with balances `"1500.00"` and `"30000.00"`, in
that account order. -/
theorem c7_one_command_per_account_in_order (accounts : List Account)
    (cryptoPrices : List (String × Option ℚ)) (stockPrices : List (String × ℚ))
    (apiKey : String) :
    (calculate_account_balances accounts cryptoPrices stockPrices apiKey).length =
      accounts.length ∧
    (∀ i : ℕ, i < accounts.length →
      (calculate_account_balances accounts cryptoPrices stockPrices apiKey).getD i "" =
        mkCommand (accounts.getD i default).id
          (format2 (accountSummary cryptoPrices stockPrices (accounts.getD i default)).1)
          apiKey) ∧
    calculate_account_balances c7Accounts c7CryptoPrices c7StockPrices "APIKEY" =
      [mkCommand "acct1" "1500.00" "APIKEY", mkCommand "acct2" "30000.00" "APIKEY"] := by
  refine ⟨List.length_map accounts _, fun i hi => map_getD_lt accounts _ default "" i hi, ?_⟩
  have e1 : accountSummary c7CryptoPrices c7StockPrices
      (Account.mk "acct1" "Brokerage" none (some [("AAPL", 10)])) = (1500, [⟨"AAPL", 10, 1500⟩]) := by
    norm_num +decide [accountSummary, stockStep, c7StockPrices, List.lookup]
  have e2 : accountSummary c7CryptoPrices c7StockPrices
      (Account.mk "acct2" "Crypto" (some [("bitcoin", 1/2)]) none) = (30000, [⟨"bitcoin", 1/2, 30000⟩]) := by
    norm_num +decide [accountSummary, cryptoStep, c7CryptoPrices, List.lookup]
  have f1 : format2 1500 = "1500.00" := by
    have h : round ((1500 : ℚ) * 100) = 150000 := by rw [round_eq]; norm_num
    simp only [format2, h]
    decide
  have f2 : format2 30000 = "30000.00" := by
    have h : round ((30000 : ℚ) * 100) = 3000000 := by rw [round_eq]; norm_num
    simp only [format2, h]
    decide
  simp only [calculate_account_balances, c7Accounts, List.map_cons, List.map_nil, e1, e2,
    f1, f2]

/-- C7, witness: the first emitted command is the one for the first
account. -/
theorem c7_one_command_per_account_in_order_witness :
    (calculate_account_balances c7Accounts c7CryptoPrices c7StockPrices "APIKEY").getD 0 "" =
      mkCommand (c7Accounts.getD 0 default).id
        (format2 (accountSummary c7CryptoPrices c7StockPrices (c7Accounts.getD 0 default)).1)
        "APIKEY" :=
  (c7_one_command_per_account_in_order c7Accounts c7CryptoPrices c7StockPrices
    "APIKEY").2.1 0 (by decide)

/-- C6: when some attempt within the retry budget is the first to receive a
successful response, `get_crypto_prices` returns a mapping with an entry
for *every* requested id — ids present in the body with a `usd` field map
to their price, the others to the explicit absent marker — so the call
succeeds even when only a subset of ids is priced; and when no attempt in
the budget succeeds, it returns the empty mapping. -/
theorem c6_entry_for_every_requested_id (cryptoIds : List String)
    (maxRetries delay : ℕ) (env : ℕ → FetchOutcome) :
    ((∀ k, k < maxRetries → ∀ b, env k ≠ .success b) →
      (get_crypto_prices cryptoIds maxRetries delay env).1 = []) ∧
    (∀ k body, k < maxRetries → env k = .success body →
      (∀ j, j < k → ∀ b, env j ≠ .success b) →
      (get_crypto_prices cryptoIds maxRetries delay env).1 = successPrices cryptoIds body) ∧
    (∀ body cid, cid ∈ cryptoIds →
      (successPrices cryptoIds body).lookup cid = some (bodyUsd body cid)) := by
  refine ⟨?_, ?_, fun body cid h => successPrices_lookup body cryptoIds cid h⟩
  · intro h
    exact go_no_success cryptoIds delay env maxRetries 0 (fun k hk1 hk2 b => h k (by omega) b)
  · intro k body hk hs hprev
    exact go_success cryptoIds delay env maxRetries 0 k body (Nat.zero_le _) (by omega) hs
      (fun j hj1 hj2 b => hprev j hj2 b)

/-- C6, witness: with a first-attempt failure and a second-attempt success
pricing only bitcoin, the call returns an entry for both requested ids
(bitcoin priced, dogecoin explicitly absent). -/
theorem c6_entry_for_every_requested_id_witness :
    (get_crypto_prices ["bitcoin", "dogecoin"] 3 5 c6Env).1 =
      successPrices ["bitcoin", "dogecoin"] [("bitcoin", some 42)] ∧
    (successPrices ["bitcoin", "dogecoin"] [("bitcoin", some 42)]).lookup "dogecoin" =
      some none := by
  constructor
  · exact (c6_entry_for_every_requested_id ["bitcoin", "dogecoin"] 3 5 c6Env).2.1 1
      [("bitcoin", some 42)] (by omega) rfl
      (fun j hj b hcon => by
        have hj0 : j = 0 := by omega
        subst hj0
        simp [c6Env] at hcon)
  · have h := (c6_entry_for_every_requested_id ["bitcoin", "dogecoin"] 3 5 c6Env).2.2
      [("bitcoin", some 42)] "dogecoin" (by simp)
    rw [h]
    rfl

/-- C3, counterexample.  The claim says a 429 retries *without consuming a
backoff step*, so it neither reduces the remaining attempts nor inflates
later exponential delays.  With `max_retries = 3`, `retry_delay = 5`, a
first-attempt 429 carrying `Retry-After: 2` and transient errors
afterwards, the code sleeps `[2, 5 * 2 ^ 1]`: the error following the 429
backs off `5 * 2 ^ 1 = 10` seconds (the 429 advanced the attempt index),
not the `5 * 2 ^ 0 = 5` seconds the claim predicts, and only two further
attempts remain. -/
theorem c3_counterexample :
    get_crypto_prices ["bitcoin"] 3 5 c3Env = ([], [2, 5 * 2 ^ 1]) ∧
      5 * 2 ^ 1 ≠ 5 * 2 ^ 0 := by
  constructor
  · decide
  · decide

/-- C3, amended.  On an HTTP 429, `get_crypto_prices` sleeps for the
`Retry-After` duration (falling back to `retry_delay` when the header is
absent) instead of the exponential backoff delay — but the `continue`
advances the `for attempt in range(max_retries)` loop, so the 429 *does*
consume one of the attempts (an all-429 run makes exactly `maxRetries`
attempts, sleeping the override duration each time, then returns the empty
mapping) and later exponential delays are computed from the advanced
attempt index. -/
theorem c3_429_sleeps_retry_after_but_consumes_attempt (cryptoIds : List String)
    (maxRetries delay t : ℕ) :
    get_crypto_prices cryptoIds maxRetries delay (fun _ => .rate429 (some t)) =
      ([], List.replicate maxRetries t) ∧
    get_crypto_prices cryptoIds maxRetries delay (fun _ => .rate429 none) =
      ([], List.replicate maxRetries delay) := by
  constructor
  · simpa using go_429_replicate cryptoIds delay (some t) maxRetries 0
  · simpa using go_429_replicate cryptoIds delay none maxRetries 0

/-- C2, counterexample.  The claim says that under constant rejection
`handle_mfa_code` performs at most one retry beyond the initial attempt.
With every submission rejected and fresh codes `222222`, `333333`,
`333333` following the initial `111111`, the code performs **two** retries
before the repeated code stops it. -/
theorem c2_counterexample :
    handle_mfa_code "111111"
        [(true, some "222222"), (true, some "333333"), (true, some "333333")] = (false, 2) ∧
      ¬ (2 ≤ 1) := by
  constructor
  · decide
  · decide

/-- C2, amended.  After a rejection, `handle_mfa_code` returns failure
immediately when fresh-code generation fails or when the fresh code equals
the one just submitted — but when the fresh code differs it recurses with
**no bound**: a chain of `n` successive distinct fresh codes under constant
rejection produces exactly `n` retries, for every `n`. -/
theorem c2_mfa_retry_unbounded (code : String) (rest : List (Bool × Option String)) (n : ℕ) :
    handle_mfa_code code ((true, none) :: rest) = (false, 0) ∧
    handle_mfa_code code ((true, some code) :: rest) = (false, 0) ∧
    handle_mfa_code (mfaCodeN 0) (mfaEnvN 0 n) = (false, n) := by
  refine ⟨by simp [handle_mfa_code], by simp [handle_mfa_code], handle_mfa_chain n 0⟩

/-- C8, counterexample.  The claim says the credential embedded in an
executed command never appears in plain text in the log.  For the command
generated for an account whose id contains the text `key: '` (id
`akey: 'b`, credential `SECRET`), the redaction extracts the wrong
substring (`b`) and the logged line still contains `SECRET` verbatim. -/
theorem c8_counterexample :
    containsSub "SECRET".toList
        (redactCommand (mkCommand "akey: 'b" "0.00" "SECRET").toList) = true ∧
      extractSecret (mkCommand "akey: 'b" "0.00" "SECRET").toList = "b".toList := by
  constructor
  · decide
  · decide

/-- C8, amended.  For a command in which the *first* occurrence of
`"key: '"` is the one introducing the credential, `"key: '"` does not recur
afterwards, and the credential contains no apostrophe, the extraction
recovers exactly the credential, and the logged line is the command with
every occurrence of the credential replaced by the fixed marker
`***REDACTED***`. -/
theorem c8_redaction_of_wellformed_commands (P key Q : List Char)
    (h1 : occursBefore keySep (P ++ keySep ++ (key ++ quoteSep ++ Q)) P.length = false)
    (h2 : containsSub keySep (key ++ quoteSep ++ Q) = false)
    (h3 : containsSub quoteSep key = false) :
    extractSecret (P ++ keySep ++ (key ++ quoteSep ++ Q)) = key ∧
    redactCommand (P ++ keySep ++ (key ++ quoteSep ++ Q)) =
      pyReplace (P ++ keySep ++ (key ++ quoteSep ++ Q)) key redactionMarker := by
  have hks : keySep ≠ [] := by decide
  have hqs : quoteSep ≠ [] := by decide
  have e1 : pySplit keySep (P ++ keySep ++ (key ++ quoteSep ++ Q)) =
      [P, key ++ quoteSep ++ Q] := by
    unfold pySplit
    rw [pySplitAux_boundary keySep hks P (key ++ quoteSep ++ Q) [] h1,
      pySplitAux_no_occur keySep (key ++ quoteSep ++ Q) [] h2]
    simp
  have hob : occursBefore quoteSep (key ++ quoteSep ++ Q) key.length = false :=
    occursBefore_single '\'' key Q h3
  have e2 : pySplit quoteSep (key ++ quoteSep ++ Q) =
      key :: pySplitAux quoteSep Q 0 [] := by
    unfold pySplit
    rw [pySplitAux_boundary quoteSep hqs key Q [] hob]
    simp
  have hsec : extractSecret (P ++ keySep ++ (key ++ quoteSep ++ Q)) = key := by
    unfold extractSecret
    rw [e1]
    show (pySplit quoteSep (key ++ quoteSep ++ Q)).getD 0 [] = key
    rw [e2]
    rfl
  refine ⟨hsec, ?_⟩
  unfold redactCommand
  rw [hsec]

/-- C8, witness: for a well-formed command carrying the credential
`APIKEY123`, the extraction recovers the credential and the logged line is
the command with the credential replaced everywhere by the marker. -/
theorem c8_redaction_of_wellformed_commands_witness :
    extractSecret ("window.projectionlabPluginAPI.updateAccount('a1', \x7b balance: 0.00 \x7d, \x7b ".toList ++
        keySep ++ ("APIKEY123".toList ++ quoteSep ++ " \x7d)".toList)) = "APIKEY123".toList ∧
    redactCommand ("window.projectionlabPluginAPI.updateAccount('a1', \x7b balance: 0.00 \x7d, \x7b ".toList ++
        keySep ++ ("APIKEY123".toList ++ quoteSep ++ " \x7d)".toList)) =
      pyReplace ("window.projectionlabPluginAPI.updateAccount('a1', \x7b balance: 0.00 \x7d, \x7b ".toList ++
        keySep ++ ("APIKEY123".toList ++ quoteSep ++ " \x7d)".toList)) "APIKEY123".toList
        redactionMarker :=
  c8_redaction_of_wellformed_commands
    "window.projectionlabPluginAPI.updateAccount('a1', \x7b balance: 0.00 \x7d, \x7b ".toList
    "APIKEY123".toList " \x7d)".toList (by decide) (by decide) (by decide)

end ProjectionLab
